import Mathlib

/-!
Shallow embedding of `ironfish-rust-nodejs/src/structs/transaction.rs`: the
NAPI binding layer for Iron Fish transactions.  Functions of the inner
`ironfish` crate (ProposedTransaction, Transaction::read/write, FROST glue)
are not part of the bound sources; where a claim depends on them they are
modelled from the specification and marked as such in their doc comments.
Byte buffers are lists of naturals (each below 256); machine integers are
Nat/Int with explicit reductions modulo powers of two.
-/

namespace Ironfish

/-- Error kinds of the boundary, per the error-handling design: parse, key,
proof, balance, range, value and signature failures. The Rust code produces
them through to_napi_err, which lives outside the bound sources. -/
inductive ErrTag where
  | RangeError
  | ValueError
  | KeyError
  | ParseError
  | ProofError
  | BalanceError
  | SignatureError
  deriving DecidableEq, Repr

/-- Outcome of a NAPI-exported call: a JS-visible value, a tagged error
result, or a Rust panic (an unstructured abort such as a slice index out of
bounds or an unwrap failure). -/
inductive NapiResult (α : Type) where
  | ok : α → NapiResult α
  | err : ErrTag → NapiResult α
  | panic : NapiResult α
  deriving DecidableEq, Repr

/-- Turns the inner crate result into the NAPI result, as map_err does. -/
def resultOfExcept {α : Type} : Except ErrTag α → NapiResult α
  | .error e => .err e
  | .ok a => .ok a

/-! ## The napi BigInt value -/

/-- One 64-bit word. -/
def WORD : Nat := 2 ^ 64

/-- The magnitude encoded by a little-endian list of 64-bit words. -/
def wordsVal : List Nat → Nat
  | [] => 0
  | w :: ws => w + WORD * wordsVal ws

/-- The napi BigInt as passed across the JS boundary: a sign bit plus the
little-endian 64-bit magnitude words. -/
structure BigIntM where
  signBit : Bool
  words : List Nat
  deriving DecidableEq, Repr

/-- Well-formedness: every magnitude word fits 64 bits. -/
def BigIntM.wf (b : BigIntM) : Prop := ∀ w ∈ b.words, w < WORD

instance (b : BigIntM) : Decidable b.wf := by
  unfold BigIntM.wf
  infer_instance

/-- BigInt::get_u64 of napi: the sign bit, the lowest magnitude word (zero
when there are no words), and the losslessness flag. -/
def BigIntM.get_u64 (b : BigIntM) : Bool × Nat × Bool :=
  (b.signBit, b.words.headD 0, !b.signBit && decide (b.words.length ≤ 1))

/-- The BigInt that carries only the low 64 bits of the magnitude, with the
sign discarded. -/
def truncBigInt (b : BigIntM) : BigIntM :=
  ⟨false, [wordsVal b.words % WORD]⟩

/-! ## Posted transactions (NativeTransactionPosted) -/

/-- The spend description exposed to JS by get_spend: tree size, serialized
root hash and nullifier bytes of the spend record. -/
structure SpendDescription where
  tree_size : Nat
  root_hash : List Nat
  nullifier : List Nat
  deriving DecidableEq, Repr

/-- The posted transaction held by NativeTransactionPosted. Outputs are kept
as their serialized merkle-note bytes, spends as their exposed descriptions;
the inner proof data is opaque to this boundary. -/
structure Transaction where
  outputs : List (List Nat)
  spends : List SpendDescription
  fee : Int
  expiration : Nat
  deriving DecidableEq, Repr

/-- NativeTransactionPosted::get_note: the i64 index is converted to usize
(failing on negatives with the range error), then the outputs slice is
indexed directly, which panics when the index is at or past the length. -/
def get_note (tx : Transaction) (index : Int) : NapiResult (List Nat) :=
  if index < 0 then .err .RangeError
  else if h : index.toNat < tx.outputs.length then
    .ok (tx.outputs.get ⟨index.toNat, h⟩)
  else .panic

/-- NativeTransactionPosted::get_spend: same index handling as get_note,
over the spends slice. -/
def get_spend (tx : Transaction) (index : Int) : NapiResult SpendDescription :=
  if index < 0 then .err .RangeError
  else if h : index.toNat < tx.spends.length then
    .ok (tx.spends.get ⟨index.toNat, h⟩)
  else .panic

/-- A posted transaction with no outputs and no spends. -/
def emptyTx : Transaction := ⟨[], [], 0, 0⟩

/-- A posted transaction with one output and one spend. -/
def demoTx : Transaction := ⟨[[1, 2]], [⟨3, [4], [5]⟩], 1, 0⟩

/-! ## The transaction builder (NativeTransaction) -/

/-- Modelled from the spec: the in-progress action accumulator of the inner
crate (ProposedTransaction, outside the bound sources) holds the ordered
spend, output, mint and burn action lists. Spends and outputs are kept as
their note values; mints as (asset, value, optional new owner); burns as
(asset identifier, value). -/
structure ProposedTransaction where
  spends : List Nat
  outputs : List Nat
  mints : List (Nat × Nat × Option Nat)
  burns : List (Nat × Nat)
  expiration : Nat
  deriving DecidableEq, Repr

/-- Modelled from the spec: ProposedTransaction::add_mint (outside the bound
sources) appends a Mint action with the given 64-bit value. -/
def add_mint (pt : ProposedTransaction) (asset value : Nat) : ProposedTransaction :=
  { pt with mints := pt.mints ++ [(asset, value, none)] }

/-- Modelled from the spec: add_mint_with_new_owner additionally records the
new owner public address on the appended Mint action. -/
def add_mint_with_new_owner (pt : ProposedTransaction) (asset value owner : Nat) :
    ProposedTransaction :=
  { pt with mints := pt.mints ++ [(asset, value, some owner)] }

/-- Modelled from the spec: ProposedTransaction::add_burn (outside the bound
sources) appends a Burn action. -/
def add_burn (pt : ProposedTransaction) (asset value : Nat) : ProposedTransaction :=
  { pt with burns := pt.burns ++ [(asset, value)] }

/-- The fixed byte length of an asset identifier. -/
def ASSET_ID_LENGTH : Nat := 32

/-- NativeTransaction::mint: the BigInt value is reduced to its low u64 word
via get_u64, then add_mint or, when an ownership transfer address is given
and parses (parseAddr abstracts PublicAddress::from_hex of the inner crate),
add_mint_with_new_owner. -/
def mint (parseAddr : String → Option Nat) (pt : ProposedTransaction)
    (asset : Nat) (value : BigIntM) (transferOwnershipTo : Option String) :
    NapiResult ProposedTransaction :=
  let value_u64 := value.get_u64.2.1
  match transferOwnershipTo with
  | none => .ok (add_mint pt asset value_u64)
  | some newOwner =>
    match parseAddr newOwner with
    | none => .err .KeyError
    | some owner => .ok (add_mint_with_new_owner pt asset value_u64 owner)

/-- NativeTransaction::burn: the asset-identifier buffer is converted to a
fixed-length array with try_into followed by unwrap, which panics when the
buffer length differs from ASSET_ID_LENGTH; then AssetIdentifier::new
(abstracted by mkAssetId, outside the bound sources) may fail with a tagged
error; then the BigInt value is reduced to its low u64 word and add_burn
appends the action. -/
def burn (mkAssetId : List Nat → Option Nat) (pt : ProposedTransaction)
    (assetIdBytes : List Nat) (value : BigIntM) : NapiResult ProposedTransaction :=
  if assetIdBytes.length = ASSET_ID_LENGTH then
    match mkAssetId assetIdBytes with
    | none => .err .ParseError
    | some assetId => .ok (add_burn pt assetId value.get_u64.2.1)
  else .panic

/-- NativeTransaction::post: the spender key is parsed from hex (failing with
the key error), the intended fee BigInt is reduced to its low u64 word, the
optional change address is parsed, and the inner crate post (abstracted by
innerPost, outside the bound sources) produces the serialized bytes. -/
def post (parseKey parseAddr : String → Option Nat)
    (innerPost : ProposedTransaction → Nat → Option Nat → Nat → Except ErrTag (List Nat))
    (pt : ProposedTransaction) (spenderHexKey : String)
    (changeGoesTo : Option String) (intendedFee : BigIntM) : NapiResult (List Nat) :=
  match parseKey spenderHexKey with
  | none => .err .KeyError
  | some key =>
    let fee_u64 := intendedFee.get_u64.2.1
    match changeGoesTo with
    | some address =>
      match parseAddr address with
      | none => .err .KeyError
      | some chg => resultOfExcept (innerPost pt key (some chg) fee_u64)
    | none => resultOfExcept (innerPost pt key none fee_u64)

/-- NativeTransaction::build: view key, outgoing view key, public address and
proof generation key are parsed from hex in that order, each failure tagged
as a key error; then the optional change address; then the inner crate build
(abstracted by innerBuild, outside the bound sources) yields the serialized
unsigned transaction. Key parsing from hex lives in the inner crate and is
abstracted by the parse functions; per the spec a malformed or wrong-length
hex key is a KeyError. The intended fee is the i64 taken from the BigInt. -/
def build (parseVK parseOVK parseAddr parsePGK : String → Option Nat)
    (innerBuild : ProposedTransaction → Nat → Nat → Nat → Nat → Int → Option Nat →
      Except ErrTag (List Nat))
    (pt : ProposedTransaction) (pgkStr vkStr ovkStr addrStr : String)
    (intendedFee : Int) (changeGoesTo : Option String) : NapiResult (List Nat) :=
  match parseVK vkStr with
  | none => .err .KeyError
  | some vk =>
    match parseOVK ovkStr with
    | none => .err .KeyError
    | some ovk =>
      match parseAddr addrStr with
      | none => .err .KeyError
      | some addr =>
        match parsePGK pgkStr with
        | none => .err .KeyError
        | some pgk =>
          match changeGoesTo with
          | some s =>
            match parseAddr s with
            | none => .err .KeyError
            | some chg =>
              resultOfExcept (innerBuild pt pgk vk ovk addr intendedFee (some chg))
          | none => resultOfExcept (innerBuild pt pgk vk ovk addr intendedFee none)

/-- The observable content of a posted miners-fee transaction: spends, output
note values, and the signed fee. -/
structure PostedMinersFee where
  spends : List Nat
  outputs : List Nat
  fee : Int
  deriving DecidableEq, Repr

/-- Modelled from the spec: ProposedTransaction::post_miners_fee (outside the
bound sources) requires a pristine builder — no spends and exactly one
output paying the miner — failing with the balance error otherwise, and
posts a transaction with no spends whose fee is the negation of the single
output value. -/
def post_miners_fee_inner (pt : ProposedTransaction) : Except ErrTag PostedMinersFee :=
  if pt.spends = [] ∧ pt.outputs.length = 1 then
    .ok ⟨[], pt.outputs, -(pt.outputs.headD 0 : Int)⟩
  else .error .BalanceError

/-- NativeTransaction::post_miners_fee: the spender key is parsed from hex
(failing with the key error), then the inner miners-fee posting runs; the
resulting transaction is returned (its byte serialization is opaque here). -/
def post_miners_fee (parseKey : String → Option Nat) (pt : ProposedTransaction)
    (spenderHexKey : String) : NapiResult PostedMinersFee :=
  match parseKey spenderHexKey with
  | none => .err .KeyError
  | some _ => resultOfExcept (post_miners_fee_inner pt)

/-! ## Batch verification -/

/-- The parsing loop of verify_transactions: each serialized buffer is read
independently (readTransaction abstracts Transaction::read of the inner
crate); the first failure aborts with none. -/
def parseAll {Tx : Type} (readTransaction : List Nat → Option Tx) :
    List (List Nat) → Option (List Tx)
  | [] => some []
  | b :: bs =>
    match readTransaction b with
    | none => none
    | some tx =>
      match parseAll readTransaction bs with
      | none => none
      | some txs => some (tx :: txs)

/-- Modelled from the spec: batch_verify_transactions (outside the bound
sources) reports a global AND of the per-transaction verification results,
vacuously succeeding on the empty collection; verifyTx abstracts the
per-transaction check. -/
def batch_verify_transactions {Tx : Type} (verifyTx : Tx → Bool) (txs : List Tx) : Bool :=
  txs.all verifyTx

/-- verify_transactions: parse every buffer; any parse failure yields the
overall result false with no per-transaction output; otherwise the boolean
outcome of batch verification over all parsed transactions. -/
def verify_transactions {Tx : Type} (readTransaction : List Nat → Option Tx)
    (verifyTx : Tx → Bool) (bufs : List (List Nat)) : NapiResult Bool :=
  match parseAll readTransaction bufs with
  | none => .ok false
  | some txs => .ok (batch_verify_transactions verifyTx txs)

/-! ## Signing packages (NativeUnsignedTransaction) -/

/-- The JS-side commitments record: hex strings for the hiding and binding
nonce commitments of one participant. -/
structure NativeSigningCommitments where
  hidingHex : String
  bindingHex : String
  deriving DecidableEq, Repr

/-- A deserialized pair of nonce commitments. Participant identifiers are
modelled as naturals, matching their canonical comparable ordering. -/
structure SigningCommitments where
  hidingNonce : Nat
  bindingNonce : Nat
  deriving DecidableEq, Repr

/-- Insertion into the key-sorted association list that models the BTreeMap
keyed by participant identifier; an existing key is overwritten. -/
def btreeInsert (k : Nat) (v : SigningCommitments) :
    List (Nat × SigningCommitments) → List (Nat × SigningCommitments)
  | [] => [(k, v)]
  | (k', v') :: rest =>
    if k < k' then (k, v) :: (k', v') :: rest
    else if k = k' then (k, v) :: rest
    else (k', v') :: btreeInsert k v rest

/-- The loop body of signing_package: the identifier hex is decoded and
deserialized (deserId abstracts hex_to_bytes plus Identifier::deserialize of
the inner crate) and both nonce commitments likewise (deserNonce abstracts
hex_to_bytes plus NonceCommitment::deserialize). -/
def deserEntry (deserId deserNonce : String → Option Nat)
    (e : String × NativeSigningCommitments) : Option (Nat × SigningCommitments) :=
  match deserId e.1 with
  | none => none
  | some idv =>
    match deserNonce e.2.hidingHex, deserNonce e.2.bindingHex with
    | some h, some b => some (idv, ⟨h, b⟩)
    | _, _ => none

/-- Entrywise deserialization of the whole commitments mapping, failing at
the first bad entry. -/
def deserEntries (deserId deserNonce : String → Option Nat) :
    List (String × NativeSigningCommitments) → Option (List (Nat × SigningCommitments))
  | [] => some []
  | e :: rest =>
    match deserEntry deserId deserNonce e with
    | none => none
    | some p =>
      match deserEntries deserId deserNonce rest with
      | none => none
      | some ps => some (p :: ps)

/-- The commitments loop of signing_package: deserialize each iterated entry
and insert it into the identifier-sorted map, erroring at the first entry
that fails to deserialize. -/
def buildCommitments (deserId deserNonce : String → Option Nat) :
    List (String × NativeSigningCommitments) → List (Nat × SigningCommitments) →
    Except ErrTag (List (Nat × SigningCommitments))
  | [], m => .ok m
  | e :: rest, m =>
    match deserEntry deserId deserNonce e with
    | none => .error .ParseError
    | some p => buildCommitments deserId deserNonce rest (btreeInsert p.1 p.2 m)

/-- NativeUnsignedTransaction::signing_package: the iterated entries of the
commitments mapping are deserialized into the identifier-sorted map, then
packed (pack abstracts UnsignedTransaction::signing_package, serialization
and hex encoding, all outside the bound sources). The whole output is a
function of the sorted map alone. -/
def signing_package (deserId deserNonce : String → Option Nat)
    (pack : List (Nat × SigningCommitments) → NapiResult String)
    (entries : List (String × NativeSigningCommitments)) : NapiResult String :=
  match buildCommitments deserId deserNonce entries [] with
  | .error e => .err e
  | .ok m => pack m

/-! ## Wire format round trip -/

/-- Modelled from the spec: the per-record byte sizes of the serialized
transaction formats, fixed externally by the proof-size constant. -/
structure WireFormat where
  spendSize : Nat
  outputSize : Nat
  mintSize : Nat
  burnSize : Nat
  randomnessSize : Nat
  signatureSize : Nat
  deriving DecidableEq, Repr

/-- Little-endian byte encoding of a natural at the given width. -/
def toLE : Nat → Nat → List Nat
  | 0, _ => []
  | w + 1, n => n % 256 :: toLE w (n / 256)

/-- The natural encoded by little-endian bytes. -/
def fromLE : List Nat → Nat
  | [] => 0
  | b :: bs => b + 256 * fromLE bs

/-- Take exactly n bytes from the front of the buffer, or fail. -/
def takeBytes (n : Nat) (bs : List Nat) : Option (List Nat × List Nat) :=
  if n ≤ bs.length then some (bs.take n, bs.drop n) else none

/-- Read the given count of fixed-size records. -/
def readRecords : Nat → Nat → List Nat → Option (List (List Nat) × List Nat)
  | 0, _, bs => some ([], bs)
  | c + 1, size, bs =>
    match takeBytes size bs with
    | none => none
    | some (r, rest) =>
      match readRecords c size rest with
      | none => none
      | some (rs, rest') => some (r :: rs, rest')

/-- A deserialized wire transaction: the raw header fields plus the record
lists; counts are implicit as the list lengths. -/
structure WireTx where
  versionByte : List Nat
  feeBytes : List Nat
  expirationBytes : List Nat
  randomnessBytes : List Nat
  spends : List (List Nat)
  outputs : List (List Nat)
  mints : List (List Nat)
  burns : List (List Nat)
  signatureBytes : List Nat
  deriving DecidableEq, Repr

/-- Modelled from the spec: Transaction::read and UnsignedTransaction::read
(outside the bound sources) parse the fixed header — version byte, the four
record counts as 64-bit little-endian, fee as signed 64-bit, expiration as
unsigned 32-bit, the public randomness — then the fixed-size spend, output,
mint and burn records, then the binding signature, consuming the whole
buffer. -/
def readTx (f : WireFormat) (bs : List Nat) : Option WireTx :=
  match takeBytes 1 bs with
  | none => none
  | some (vB, r0) =>
    match takeBytes 8 r0 with
    | none => none
    | some (sC, r1) =>
      match takeBytes 8 r1 with
      | none => none
      | some (oC, r2) =>
        match takeBytes 8 r2 with
        | none => none
        | some (mC, r3) =>
          match takeBytes 8 r3 with
          | none => none
          | some (bC, r4) =>
            match takeBytes 8 r4 with
            | none => none
            | some (feeB, r5) =>
              match takeBytes 4 r5 with
              | none => none
              | some (expB, r6) =>
                match takeBytes f.randomnessSize r6 with
                | none => none
                | some (randB, r7) =>
                  match readRecords (fromLE sC) f.spendSize r7 with
                  | none => none
                  | some (sp, r8) =>
                    match readRecords (fromLE oC) f.outputSize r8 with
                    | none => none
                    | some (op, r9) =>
                      match readRecords (fromLE mC) f.mintSize r9 with
                      | none => none
                      | some (mi, r10) =>
                        match readRecords (fromLE bC) f.burnSize r10 with
                        | none => none
                        | some (bu, r11) =>
                          match takeBytes f.signatureSize r11 with
                          | none => none
                          | some (sig, r12) =>
                            if r12 = [] then
                              some ⟨vB, feeB, expB, randB, sp, op, mi, bu, sig⟩
                            else none

/-- Modelled from the spec: Transaction::write and UnsignedTransaction::write
(outside the bound sources) emit the header, the concatenated records, and
the binding signature. -/
def writeTx (t : WireTx) : List Nat :=
  t.versionByte ++ toLE 8 t.spends.length ++ toLE 8 t.outputs.length ++
  toLE 8 t.mints.length ++ toLE 8 t.burns.length ++
  t.feeBytes ++ t.expirationBytes ++ t.randomnessBytes ++
  t.spends.flatten ++ t.outputs.flatten ++ t.mints.flatten ++ t.burns.flatten ++
  t.signatureBytes

/-! ## Concrete instances for the concrete checks -/

/-- An empty builder. -/
def pt0 : ProposedTransaction := ⟨[], [], [], [], 0⟩

/-- A builder holding a single output of value 5. -/
def ptOneOutput : ProposedTransaction := ⟨[], [5], [], [], 0⟩

/-- A builder holding one spend, hence not pristine for a miners fee. -/
def ptWithSpend : ProposedTransaction := ⟨[9], [5], [], [], 0⟩

/-- A pristine builder whose single output has value 0. -/
def ptZeroOutput : ProposedTransaction := ⟨[], [0], [], [], 0⟩

/-- Concrete hex parser: accepts exactly the strings of length two. -/
def parseDemo : String → Option Nat :=
  fun s => if s.length = 2 then some s.length else none

/-- Concrete asset-identifier constructor. -/
def mkAssetIdDemo : List Nat → Option Nat := fun bs => some bs.length

/-- Concrete inner post. -/
def innerPostDemo : ProposedTransaction → Nat → Option Nat → Nat → Except ErrTag (List Nat) :=
  fun _ _ _ fee => .ok [fee]

/-- Concrete inner build. -/
def innerBuildDemo : ProposedTransaction → Nat → Nat → Nat → Nat → Int → Option Nat →
    Except ErrTag (List Nat) := fun _ _ _ _ _ _ _ => .ok []

/-- The BigInt whose magnitude is exactly 2^64: words [0, 1]. -/
def big2to64 : BigIntM := ⟨false, [0, 1]⟩

/-- A negative two-word BigInt. -/
def bigDemo : BigIntM := ⟨true, [3, 5]⟩

/-- Concrete identifier deserializer keyed on string length. -/
def deserIdDemo : String → Option Nat := fun s => some s.length

/-- Concrete nonce deserializer keyed on string length. -/
def deserNonceDemo : String → Option Nat := fun s => some s.length

/-- Concrete pack function. -/
def packDemo : List (Nat × SigningCommitments) → NapiResult String := fun _ => .ok "pkg"

/-- Two commitment entry lists holding the same entries in swapped order. -/
def entries1 : List (String × NativeSigningCommitments) :=
  [("a", ⟨"x", "yy"⟩), ("bb", ⟨"u", "vvv"⟩)]

/-- The same entries as entries1, iterated in the other order. -/
def entries2 : List (String × NativeSigningCommitments) :=
  [("bb", ⟨"u", "vvv"⟩), ("a", ⟨"x", "yy"⟩)]

/-- Concrete transaction reader for batch checks: the head byte. -/
def readDemo : List Nat → Option Nat := List.head?

/-- Concrete per-transaction verifier for batch checks. -/
def verifyDemo : Nat → Bool := fun n => n == 1

/-- A tiny wire format with empty randomness and signature sections. -/
def demoFmt : WireFormat := ⟨1, 1, 1, 1, 0, 0⟩

/-- A 45-byte buffer: version 7, all four counts zero, zero fee bytes and
zero expiration bytes. -/
def demoBs : List Nat := 7 :: List.replicate 44 0

/-- The wire transaction that demoBs parses to under demoFmt. -/
def demoWireTx : WireTx :=
  ⟨[7], List.replicate 8 0, List.replicate 4 0, [], [], [], [], [], []⟩

/-! ## Theorems -/

/-- Under 64-bit well-formed words, the lowest word is the magnitude reduced
modulo 2^64. -/
theorem wordsVal_mod (ws : List Nat) (h : ∀ w ∈ ws, w < WORD) :
    ws.headD 0 = wordsVal ws % WORD := by
  cases ws with
  | nil => simp [wordsVal]
  | cons w ws =>
    have hw : w < WORD := h w (List.mem_cons_self w ws)
    simp only [List.headD_cons, wordsVal]
    rw [Nat.add_mul_mod_self_left, Nat.mod_eq_of_lt hw]

/-- C1 (amended): for every negative index, get_note and get_spend fail with
the RangeError-tagged error; for every index that is a valid position they
return the record at that position; but for every non-negative index at or
past the length they panic (slice index out of bounds) instead of returning
a RangeError-tagged error result. -/
theorem claim_C1 (tx : Transaction) (index : Int) :
    (index < 0 → get_note tx index = .err .RangeError ∧ get_spend tx index = .err .RangeError)
    ∧ (∀ h : index.toNat < tx.outputs.length, 0 ≤ index →
        get_note tx index = .ok (tx.outputs.get ⟨index.toNat, h⟩))
    ∧ (∀ h : index.toNat < tx.spends.length, 0 ≤ index →
        get_spend tx index = .ok (tx.spends.get ⟨index.toNat, h⟩))
    ∧ (0 ≤ index → tx.outputs.length ≤ index.toNat → get_note tx index = .panic)
    ∧ (0 ≤ index → tx.spends.length ≤ index.toNat → get_spend tx index = .panic) := by
  refine ⟨fun h => ⟨?_, ?_⟩, fun h hnn => ?_, fun h hnn => ?_, fun hnn h => ?_, fun hnn h => ?_⟩
  · simp [get_note, h]
  · simp [get_spend, h]
  · simp only [get_note]
    rw [if_neg (by omega), dif_pos h]
  · simp only [get_spend]
    rw [if_neg (by omega), dif_pos h]
  · simp only [get_note]
    rw [if_neg (by omega), dif_neg (by omega)]
  · simp only [get_spend]
    rw [if_neg (by omega), dif_neg (by omega)]

/-- C1 counterexample: on a posted transaction with no outputs, index 0 is
not a valid position, yet get_note panics instead of failing with the
RangeError-tagged error result the claim demands. -/
theorem claim_C1_counterexample :
    emptyTx.outputs.length = 0 ∧ get_note emptyTx 0 = .panic ∧
      get_note emptyTx 0 ≠ .err .RangeError := by decide

/-- Concrete check instantiating claim_C1. -/
theorem claim_C1_witness :
    get_note demoTx (-1) = .err .RangeError ∧ get_note demoTx 0 = .ok [1, 2] :=
  ⟨((claim_C1 demoTx (-1)).1 (by decide)).1,
    (claim_C1 demoTx 0).2.1 (by decide) (by decide)⟩

/-- C2 (amended): a mint or burn value whose magnitude does not fit an
unsigned 64-bit range is not rejected with a ValueError: the bindings keep
only the low 64 bits of the magnitude and the action is appended. -/
theorem claim_C2 (parseAddr : String → Option Nat) (mkAssetId : List Nat → Option Nat)
    (pt : ProposedTransaction) (asset : Nat) (bs : List Nat) (b : BigIntM)
    (owner : String) (ownerId : Nat) (aid : Nat)
    (hwf : b.wf) (hbig : WORD ≤ wordsVal b.words)
    (howner : parseAddr owner = some ownerId)
    (hlen : bs.length = ASSET_ID_LENGTH) (haid : mkAssetId bs = some aid) :
    mint parseAddr pt asset b none = .ok (add_mint pt asset (wordsVal b.words % WORD))
    ∧ mint parseAddr pt asset b (some owner) =
        .ok (add_mint_with_new_owner pt asset (wordsVal b.words % WORD) ownerId)
    ∧ burn mkAssetId pt bs b = .ok (add_burn pt aid (wordsVal b.words % WORD)) := by
  have hv : b.get_u64.2.1 = wordsVal b.words % WORD := wordsVal_mod b.words hwf
  refine ⟨?_, ?_, ?_⟩
  · simp [mint, hv]
  · simp [mint, hv, howner]
  · simp [burn, hlen, haid, hv]

/-- C2 counterexample: the BigInt of magnitude 2^64 does not fit an unsigned
64-bit range, yet mint and burn accept it (appending the truncated value 0)
rather than failing with a ValueError-tagged error. -/
theorem claim_C2_counterexample :
    WORD ≤ wordsVal big2to64.words ∧
    mint parseDemo pt0 7 big2to64 none = .ok (add_mint pt0 7 0) ∧
    burn mkAssetIdDemo pt0 (List.replicate 32 0) big2to64 = .ok (add_burn pt0 32 0) := by
  decide

/-- Concrete check instantiating claim_C2. -/
theorem claim_C2_witness :
    mint parseDemo pt0 7 big2to64 (some "ab") =
      .ok (add_mint_with_new_owner pt0 7 (wordsVal big2to64.words % WORD) 2) :=
  (claim_C2 parseDemo mkAssetIdDemo pt0 7 (List.replicate 32 0) big2to64 "ab" 2 32
    (by decide) (by decide) (by decide) (by decide) (by decide)).2.1

/-- C3 (amended): burn on an input buffer whose length differs from the fixed
asset-identifier length aborts with a panic (the unwrap on try_into) rather
than returning a tagged error result; on a correct-length buffer every
fallible step of burn surfaces as a tagged error, never as a panic. -/
theorem claim_C3 (mkAssetId : List Nat → Option Nat) (pt : ProposedTransaction)
    (bs : List Nat) (v : BigIntM) :
    (bs.length ≠ ASSET_ID_LENGTH → burn mkAssetId pt bs v = .panic)
    ∧ (bs.length = ASSET_ID_LENGTH → burn mkAssetId pt bs v ≠ .panic) := by
  constructor
  · intro h
    simp [burn, h]
  · intro h
    simp only [burn, if_pos h]
    cases mkAssetId bs <;> simp

/-- C3 counterexample: burn on the empty buffer (whose length is not the
fixed asset-identifier length) panics instead of returning an error result. -/
theorem claim_C3_counterexample :
    ([] : List Nat).length ≠ ASSET_ID_LENGTH ∧
    burn mkAssetIdDemo pt0 [] big2to64 = .panic := by decide

/-- Concrete check instantiating claim_C3. -/
theorem claim_C3_witness :
    burn mkAssetIdDemo pt0 (List.replicate 32 1) big2to64 ≠ .panic ∧
    burn mkAssetIdDemo pt0 [1, 2] big2to64 = .panic :=
  ⟨(claim_C3 mkAssetIdDemo pt0 (List.replicate 32 1) big2to64).2 (by decide),
    (claim_C3 mkAssetIdDemo pt0 [1, 2] big2to64).1 (by decide)⟩

/-- C10: mint, burn and post consume only the lowest 64-bit word of the
BigInt magnitude; the sign bit and any higher words are discarded without
error, so each call behaves identically on the truncated non-negative value
|v| mod 2^64. -/
theorem claim_C10 (parseAddr parseKey : String → Option Nat)
    (mkAssetId : List Nat → Option Nat)
    (innerPost : ProposedTransaction → Nat → Option Nat → Nat → Except ErrTag (List Nat))
    (pt : ProposedTransaction) (asset : Nat) (bs : List Nat) (k : String)
    (chg : Option String) (t : Option String) (b : BigIntM) (hwf : b.wf) :
    mint parseAddr pt asset b t = mint parseAddr pt asset (truncBigInt b) t
    ∧ burn mkAssetId pt bs b = burn mkAssetId pt bs (truncBigInt b)
    ∧ post parseKey parseAddr innerPost pt k chg b =
        post parseKey parseAddr innerPost pt k chg (truncBigInt b) := by
  have hv : b.get_u64.2.1 = (truncBigInt b).get_u64.2.1 := by
    show b.words.headD 0 = [wordsVal b.words % WORD].headD 0
    rw [wordsVal_mod b.words hwf]
    rfl
  refine ⟨?_, ?_, ?_⟩
  · simp only [mint, hv]
  · simp only [burn, hv]
  · simp only [post, hv]

/-- Concrete check instantiating claim_C10. -/
theorem claim_C10_witness :
    mint parseDemo pt0 1 bigDemo none = mint parseDemo pt0 1 (truncBigInt bigDemo) none ∧
    post parseDemo parseDemo innerPostDemo pt0 "kk" none bigDemo =
      post parseDemo parseDemo innerPostDemo pt0 "kk" none (truncBigInt bigDemo) :=
  ⟨(claim_C10 parseDemo parseDemo mkAssetIdDemo innerPostDemo pt0 1 [] "kk" none none bigDemo
      (by decide)).1,
    (claim_C10 parseDemo parseDemo mkAssetIdDemo innerPostDemo pt0 1 [] "kk" none none bigDemo
      (by decide)).2.2⟩

/-- If some buffer in the list fails to parse, the whole parse loop of
verify_transactions fails. -/
theorem parseAll_eq_none {Tx : Type} (readTransaction : List Nat → Option Tx)
    (b : List Nat) (hb : readTransaction b = none) :
    ∀ bufs : List (List Nat), b ∈ bufs → parseAll readTransaction bufs = none := by
  intro bufs
  induction bufs with
  | nil => intro h; cases h
  | cons x xs ih =>
    intro hmem
    rcases List.mem_cons.mp hmem with rfl | hx
    · simp [parseAll, hb]
    · cases hr : readTransaction x with
      | none => simp [parseAll, hr]
      | some tx => simp [parseAll, hr, ih hx]

/-- C4: verify_transactions returns false whenever any single buffer fails to
parse as a transaction, regardless of the validity of the other entries and
with no per-transaction result exposed; and whenever every buffer parses it
returns the boolean outcome of batch verification over all parsed
transactions. -/
theorem claim_C4 {Tx : Type} (readTransaction : List Nat → Option Tx) (verifyTx : Tx → Bool)
    (bufs : List (List Nat)) :
    ((∃ b ∈ bufs, readTransaction b = none) →
        verify_transactions readTransaction verifyTx bufs = .ok false)
    ∧ (∀ txs, parseAll readTransaction bufs = some txs →
        verify_transactions readTransaction verifyTx bufs =
          .ok (batch_verify_transactions verifyTx txs)) := by
  constructor
  · rintro ⟨b, hmem, hb⟩
    unfold verify_transactions
    rw [parseAll_eq_none readTransaction b hb bufs hmem]
  · intro txs h
    unfold verify_transactions
    rw [h]

/-- Concrete check instantiating claim_C4. -/
theorem claim_C4_witness :
    verify_transactions readDemo verifyDemo [[1], []] = .ok false ∧
    verify_transactions readDemo verifyDemo [[1], [2]] =
      .ok (batch_verify_transactions verifyDemo [1, 2]) :=
  ⟨(claim_C4 readDemo verifyDemo [[1], []]).1 ⟨[], by decide, by decide⟩,
    (claim_C4 readDemo verifyDemo [[1], [2]]).2 [1, 2] (by decide)⟩

/-- C6: verify_transactions applied to the empty list vacuously succeeds with
true. -/
theorem claim_C6 {Tx : Type} (readTransaction : List Nat → Option Tx)
    (verifyTx : Tx → Bool) :
    verify_transactions readTransaction verifyTx [] = .ok true := rfl

/-- C8: build fails with the KeyError-tagged error, returning no unsigned
transaction, whenever any of the view key, outgoing view key, public
address, proof generation key, or present change address is malformed (fails
to parse). -/
theorem claim_C8 (parseVK parseOVK parseAddr parsePGK : String → Option Nat)
    (innerBuild : ProposedTransaction → Nat → Nat → Nat → Nat → Int → Option Nat →
      Except ErrTag (List Nat))
    (pt : ProposedTransaction) (pgkStr vkStr ovkStr addrStr : String)
    (intendedFee : Int) (changeGoesTo : Option String)
    (h : parseVK vkStr = none ∨ parseOVK ovkStr = none ∨ parseAddr addrStr = none ∨
      parsePGK pgkStr = none ∨ ∃ s, changeGoesTo = some s ∧ parseAddr s = none) :
    build parseVK parseOVK parseAddr parsePGK innerBuild pt pgkStr vkStr ovkStr addrStr
      intendedFee changeGoesTo = .err .KeyError := by
  unfold build
  rcases h with h | h | h | h | ⟨s, rfl, hs⟩
  · rw [h]
  · cases hvk : parseVK vkStr with
    | none => rfl
    | some vk => rw [h]
  · cases hvk : parseVK vkStr with
    | none => rfl
    | some vk =>
      cases hovk : parseOVK ovkStr with
      | none => rfl
      | some ovk => rw [h]
  · cases hvk : parseVK vkStr with
    | none => rfl
    | some vk =>
      cases hovk : parseOVK ovkStr with
      | none => rfl
      | some ovk =>
        cases haddr : parseAddr addrStr with
        | none => rfl
        | some addr => rw [h]
  · cases hvk : parseVK vkStr with
    | none => rfl
    | some vk =>
      cases hovk : parseOVK ovkStr with
      | none => rfl
      | some ovk =>
        cases haddr : parseAddr addrStr with
        | none => rfl
        | some addr =>
          cases hpgk : parsePGK pgkStr with
          | none => rfl
          | some pgk => simp [hs]

/-- Concrete check instantiating claim_C8. -/
theorem claim_C8_witness :
    build parseDemo parseDemo parseDemo parseDemo innerBuildDemo pt0 "pg" "bad" "ov" "ad" 0
      none = .err .KeyError :=
  claim_C8 parseDemo parseDemo parseDemo parseDemo innerBuildDemo pt0 "pg" "bad" "ov" "ad" 0
    none (Or.inl (by decide))

/-- C9 (amended): with a parsable spender key, every transaction produced by
post_miners_fee has zero spends and a fee equal to the negation of its single
output value — strictly negative exactly when that value is positive, zero
when the output value is zero — and post_miners_fee fails with the
BalanceError-tagged error whenever a spend or an extra output has already
been added to the builder. -/
theorem claim_C9 (parseKey : String → Option Nat) (pt : ProposedTransaction)
    (k : String) (key : Nat) (hk : parseKey k = some key) :
    (∀ tx, post_miners_fee parseKey pt k = .ok tx →
        tx.spends = [] ∧ ∃ v, pt.outputs = [v] ∧ tx.outputs = [v] ∧ tx.fee = -(v : Int) ∧
          (tx.fee < 0 ↔ 0 < v))
    ∧ (pt.spends ≠ [] ∨ 1 < pt.outputs.length →
        post_miners_fee parseKey pt k = .err .BalanceError) := by
  have hpost : post_miners_fee parseKey pt k = resultOfExcept (post_miners_fee_inner pt) := by
    unfold post_miners_fee
    rw [hk]
  constructor
  · intro tx htx
    rw [hpost] at htx
    unfold post_miners_fee_inner at htx
    split at htx
    · next hc =>
      simp only [resultOfExcept] at htx
      obtain ⟨v, hv⟩ := List.length_eq_one.mp hc.2
      cases htx
      refine ⟨rfl, v, hv, ?_, ?_, ?_⟩
      · simpa using hv
      · simp [hv]
      · simp only [hv, List.headD_cons]
        omega
    · simp only [resultOfExcept] at htx
      cases htx
  · intro h
    rw [hpost]
    unfold post_miners_fee_inner
    rw [if_neg ?hneg]
    case hneg =>
      rintro ⟨h1, h2⟩
      rcases h with h | h
      · exact h h1
      · omega
    rfl

/-- C9 counterexample: on a pristine builder whose single output has value 0,
post_miners_fee succeeds and the produced transaction has fee 0, which is
not strictly negative, refuting the unconditional strict-negativity claim. -/
theorem claim_C9_counterexample :
    post_miners_fee parseDemo ptZeroOutput "kk" = .ok ⟨[], [0], 0⟩ ∧
      ¬ ((⟨[], [0], 0⟩ : PostedMinersFee).fee < 0) := by decide

/-- Concrete check instantiating claim_C9. -/
theorem claim_C9_witness :
    post_miners_fee parseDemo ptWithSpend "kk" = .err .BalanceError ∧
    (⟨[], [5], -5⟩ : PostedMinersFee).spends = [] :=
  ⟨(claim_C9 parseDemo ptWithSpend "kk" 2 (by decide)).2 (Or.inl (by decide)),
    ((claim_C9 parseDemo ptOneOutput "kk" 2 (by decide)).1 ⟨[], [5], -5⟩ (by decide)).1⟩

/-- Inserting below the head key prepends the entry. -/
theorem btreeInsert_lt {k k' : Nat} {v v' : SigningCommitments}
    {rest : List (Nat × SigningCommitments)} (h : k < k') :
    btreeInsert k v ((k', v') :: rest) = (k, v) :: (k', v') :: rest := by
  simp [btreeInsert, h]

/-- Inserting at the head key overwrites the head entry. -/
theorem btreeInsert_keq {k k' : Nat} {v v' : SigningCommitments}
    {rest : List (Nat × SigningCommitments)} (h : k = k') :
    btreeInsert k v ((k', v') :: rest) = (k, v) :: rest := by
  subst h
  simp [btreeInsert]

/-- Inserting above the head key recurses past the head. -/
theorem btreeInsert_gt {k k' : Nat} {v v' : SigningCommitments}
    {rest : List (Nat × SigningCommitments)} (h : k' < k) :
    btreeInsert k v ((k', v') :: rest) = (k', v') :: btreeInsert k v rest := by
  have h1 : ¬ k < k' := by omega
  have h2 : ¬ k = k' := by omega
  simp [btreeInsert, h1, h2]

/-- Inserting two entries with distinct keys into the sorted map commutes. -/
theorem btreeInsert_comm (k₁ k₂ : Nat) (v₁ v₂ : SigningCommitments) (hne : k₁ ≠ k₂) :
    ∀ m, btreeInsert k₁ v₁ (btreeInsert k₂ v₂ m) = btreeInsert k₂ v₂ (btreeInsert k₁ v₁ m) := by
  intro m
  induction m with
  | nil =>
    rcases Nat.lt_or_ge k₁ k₂ with h12 | h12
    · rw [show btreeInsert k₂ v₂ [] = [(k₂, v₂)] from rfl,
        show btreeInsert k₁ v₁ [] = [(k₁, v₁)] from rfl,
        btreeInsert_lt h12, btreeInsert_gt h12]
      rfl
    · have h21 : k₂ < k₁ := by omega
      rw [show btreeInsert k₂ v₂ [] = [(k₂, v₂)] from rfl,
        show btreeInsert k₁ v₁ [] = [(k₁, v₁)] from rfl,
        btreeInsert_gt h21, btreeInsert_lt h21]
      rfl
  | cons p rest ih =>
    obtain ⟨k, v⟩ := p
    rcases Nat.lt_trichotomy k₁ k with h1 | h1 | h1 <;>
      rcases Nat.lt_trichotomy k₂ k with h2 | h2 | h2
    · rcases Nat.lt_or_ge k₁ k₂ with h12 | h12
      · rw [btreeInsert_lt h2, btreeInsert_lt h12, btreeInsert_lt h1,
          btreeInsert_gt h12, btreeInsert_lt h2]
      · have h21 : k₂ < k₁ := by omega
        rw [btreeInsert_lt h2, btreeInsert_gt h21, btreeInsert_lt h1,
          btreeInsert_lt h21]
    · have h12 : k₁ < k₂ := by omega
      rw [btreeInsert_keq h2, btreeInsert_lt h12, btreeInsert_lt h1,
        btreeInsert_gt h12, btreeInsert_keq h2]
    · have h12 : k₁ < k₂ := by omega
      rw [btreeInsert_gt h2, btreeInsert_lt h1, btreeInsert_lt h1,
        btreeInsert_gt h12, btreeInsert_gt h2]
    · have h21 : k₂ < k₁ := by omega
      rw [btreeInsert_lt h2, btreeInsert_gt h21, btreeInsert_keq h1,
        btreeInsert_lt h21]
    · exact absurd (h1.trans h2.symm) hne
    · have h12 : k₁ < k₂ := by omega
      rw [btreeInsert_gt h2, btreeInsert_keq h1, btreeInsert_keq h1,
        btreeInsert_gt h12]
    · have h21 : k₂ < k₁ := by omega
      rw [btreeInsert_lt h2, btreeInsert_gt h21, btreeInsert_gt h1,
        btreeInsert_lt h2]
    · have h21 : k₂ < k₁ := by omega
      rw [btreeInsert_keq h2, btreeInsert_gt h21, btreeInsert_gt h1,
        btreeInsert_keq h2]
    · rw [btreeInsert_gt h2, btreeInsert_gt h1, btreeInsert_gt h1,
        btreeInsert_gt h2, ih]

/-- Folding btreeInsert over a permutation of entries with pairwise distinct
keys builds the same sorted map. -/
theorem foldl_btreeInsert_perm {l₁ l₂ : List (Nat × SigningCommitments)}
    (p : l₁.Perm l₂) :
    (l₁.map Prod.fst).Nodup →
    ∀ m, l₁.foldl (fun acc q => btreeInsert q.1 q.2 acc) m =
      l₂.foldl (fun acc q => btreeInsert q.1 q.2 acc) m := by
  induction p with
  | nil =>
    intro _ _
    rfl
  | cons x p ih =>
    intro hnd m
    simp only [List.foldl_cons]
    refine ih ?_ _
    simp only [List.map_cons, List.nodup_cons] at hnd
    exact hnd.2
  | swap x y l =>
    intro hnd m
    have hxy : x.1 ≠ y.1 := by
      simp only [List.map_cons, List.nodup_cons, List.mem_cons] at hnd
      intro he
      exact hnd.1 (Or.inl he.symm)
    simp only [List.foldl_cons]
    rw [btreeInsert_comm x.1 y.1 x.2 y.2 hxy m]
  | trans p₁ p₂ ih₁ ih₂ =>
    intro hnd m
    rw [ih₁ hnd m]
    exact ih₂ ((p₁.map Prod.fst).nodup_iff.mp hnd) m

/-- The commitments loop equals entrywise deserialization followed by folding
the sorted-map insertions. -/
theorem buildCommitments_eq (deserId deserNonce : String → Option Nat) :
    ∀ (l : List (String × NativeSigningCommitments)) (m : List (Nat × SigningCommitments)),
    buildCommitments deserId deserNonce l m =
      match deserEntries deserId deserNonce l with
      | none => .error .ParseError
      | some es => .ok (es.foldl (fun acc q => btreeInsert q.1 q.2 acc) m) := by
  intro l
  induction l with
  | nil =>
    intro m
    rfl
  | cons e rest ih =>
    intro m
    cases he : deserEntry deserId deserNonce e with
    | none => simp [buildCommitments, deserEntries, he]
    | some p =>
      simp only [buildCommitments, deserEntries, he]
      rw [ih (btreeInsert p.1 p.2 m)]
      cases hr : deserEntries deserId deserNonce rest with
      | none => rfl
      | some ps => simp [List.foldl_cons]

/-- C5: the signing package is a function of the set of deserialized
participant-identifier/commitment pairs alone: two commitment mappings whose
entries deserialize to the same pairs, with pairwise distinct identifiers, in
any iteration order, produce identical signing packages (canonical sorting by
identifier). -/
theorem claim_C5 (deserId deserNonce : String → Option Nat)
    (pack : List (Nat × SigningCommitments) → NapiResult String)
    (l₁ l₂ : List (String × NativeSigningCommitments))
    (es₁ es₂ : List (Nat × SigningCommitments))
    (h₁ : deserEntries deserId deserNonce l₁ = some es₁)
    (h₂ : deserEntries deserId deserNonce l₂ = some es₂)
    (hperm : es₁.Perm es₂) (hnd : (es₁.map Prod.fst).Nodup) :
    signing_package deserId deserNonce pack l₁ =
      signing_package deserId deserNonce pack l₂ := by
  unfold signing_package
  rw [buildCommitments_eq, buildCommitments_eq, h₁, h₂]
  simp only
  rw [foldl_btreeInsert_perm hperm hnd []]

/-- Concrete check instantiating claim_C5 on two swapped entry lists. -/
theorem claim_C5_witness :
    signing_package deserIdDemo deserNonceDemo packDemo entries1 =
      signing_package deserIdDemo deserNonceDemo packDemo entries2 :=
  claim_C5 deserIdDemo deserNonceDemo packDemo entries1 entries2
    [(1, ⟨1, 2⟩), (2, ⟨1, 3⟩)] [(2, ⟨1, 3⟩), (1, ⟨1, 2⟩)]
    (by decide) (by decide) (List.Perm.swap _ _ _) (by decide)

/-- A successful takeBytes splits the buffer into a chunk of the exact width
and the remainder. -/
theorem takeBytes_some {n : Nat} {bs c r : List Nat} (h : takeBytes n bs = some (c, r)) :
    bs = c ++ r ∧ c.length = n := by
  unfold takeBytes at h
  split at h
  · next hle =>
    injection h with h'
    cases h'
    refine ⟨(List.take_append_drop n bs).symm, ?_⟩
    rw [List.length_take]
    omega
  · cases h

/-- A successful readRecords splits the buffer into the flattened records and
the remainder, reading exactly the requested count. -/
theorem readRecords_some :
    ∀ {c size : Nat} {bs : List Nat} {rs : List (List Nat)} {rest : List Nat},
    readRecords c size bs = some (rs, rest) →
    bs = rs.flatten ++ rest ∧ rs.length = c := by
  intro c
  induction c with
  | zero =>
    intro size bs rs rest h
    unfold readRecords at h
    injection h with h'
    cases h'
    simp
  | succ c ih =>
    intro size bs rs rest h
    unfold readRecords at h
    split at h
    · cases h
    · next r rest₁ heq =>
      split at h
      · cases h
      · next rs₁ rest₂ heq₂ =>
        injection h with h'
        cases h'
        obtain ⟨hbs, hlen⟩ := takeBytes_some heq
        obtain ⟨hrest, hlen'⟩ := ih heq₂
        constructor
        · rw [hbs, hrest]
          simp [List.append_assoc]
        · simp [hlen']

/-- Little-endian decoding then encoding at the original width reproduces the
bytes, provided each byte is below 256. -/
theorem toLE_fromLE : ∀ bs : List Nat, (∀ b ∈ bs, b < 256) →
    toLE bs.length (fromLE bs) = bs := by
  intro bs
  induction bs with
  | nil =>
    intro _
    rfl
  | cons b rest ih =>
    intro h
    have hb : b < 256 := h b (List.mem_cons_self _ _)
    simp only [List.length_cons, toLE, fromLE]
    have h1 : (b + 256 * fromLE rest) % 256 = b := by omega
    have h2 : (b + 256 * fromLE rest) / 256 = fromLE rest := by omega
    rw [h1, h2, ih (fun x hx => h x (List.mem_cons_of_mem _ hx))]

/-- Every byte of the left part of an append is a byte of the whole. -/
theorem all_lt_append_left {l r : List Nat} (h : ∀ b ∈ l ++ r, b < 256) :
    ∀ b ∈ l, b < 256 :=
  fun b hb => h b (List.mem_append_left _ hb)

/-- Every byte of the right part of an append is a byte of the whole. -/
theorem all_lt_append_right {l r : List Nat} (h : ∀ b ∈ l ++ r, b < 256) :
    ∀ b ∈ r, b < 256 :=
  fun b hb => h b (List.mem_append_right _ hb)

/-- C7: for every byte buffer that deserializes into a wire transaction
(posted and unsigned formats are both instances of the header/records/
signature layout, over arbitrary record sizes), serializing the result
yields exactly the original buffer. -/
theorem claim_C7 (f : WireFormat) (bs : List Nat) (tx : WireTx)
    (hb : ∀ b ∈ bs, b < 256) (h : readTx f bs = some tx) :
    writeTx tx = bs := by
  unfold readTx at h
  split at h
  · cases h
  next vB r0 heq0 =>
  split at h
  · cases h
  next sC r1 heq1 =>
  split at h
  · cases h
  next oC r2 heq2 =>
  split at h
  · cases h
  next mC r3 heq3 =>
  split at h
  · cases h
  next bC r4 heq4 =>
  split at h
  · cases h
  next feeB r5 heq5 =>
  split at h
  · cases h
  next expB r6 heq6 =>
  split at h
  · cases h
  next randB r7 heq7 =>
  split at h
  · cases h
  next sp r8 heq8 =>
  split at h
  · cases h
  next op r9 heq9 =>
  split at h
  · cases h
  next mi r10 heq10 =>
  split at h
  · cases h
  next bu r11 heq11 =>
  split at h
  · cases h
  next sig r12 heq12 =>
  split at h
  · next hr12 =>
    injection h with h'
    cases h'
    obtain ⟨e0, l0⟩ := takeBytes_some heq0
    obtain ⟨e1, l1⟩ := takeBytes_some heq1
    obtain ⟨e2, l2⟩ := takeBytes_some heq2
    obtain ⟨e3, l3⟩ := takeBytes_some heq3
    obtain ⟨e4, l4⟩ := takeBytes_some heq4
    obtain ⟨e5, l5⟩ := takeBytes_some heq5
    obtain ⟨e6, l6⟩ := takeBytes_some heq6
    obtain ⟨e7, l7⟩ := takeBytes_some heq7
    obtain ⟨e8, l8⟩ := readRecords_some heq8
    obtain ⟨e9, l9⟩ := readRecords_some heq9
    obtain ⟨e10, l10⟩ := readRecords_some heq10
    obtain ⟨e11, l11⟩ := readRecords_some heq11
    obtain ⟨e12, l12⟩ := takeBytes_some heq12
    have hb0 : ∀ b ∈ r0, b < 256 := all_lt_append_right (e0 ▸ hb)
    have hbsC : ∀ b ∈ sC, b < 256 := all_lt_append_left (e1 ▸ hb0)
    have hb1 : ∀ b ∈ r1, b < 256 := all_lt_append_right (e1 ▸ hb0)
    have hboC : ∀ b ∈ oC, b < 256 := all_lt_append_left (e2 ▸ hb1)
    have hb2 : ∀ b ∈ r2, b < 256 := all_lt_append_right (e2 ▸ hb1)
    have hbmC : ∀ b ∈ mC, b < 256 := all_lt_append_left (e3 ▸ hb2)
    have hb3 : ∀ b ∈ r3, b < 256 := all_lt_append_right (e3 ▸ hb2)
    have hbbC : ∀ b ∈ bC, b < 256 := all_lt_append_left (e4 ▸ hb3)
    have hsC : toLE 8 sp.length = sC := by
      rw [l8, ← l1]
      exact toLE_fromLE sC hbsC
    have hoC : toLE 8 op.length = oC := by
      rw [l9, ← l2]
      exact toLE_fromLE oC hboC
    have hmC : toLE 8 mi.length = mC := by
      rw [l10, ← l3]
      exact toLE_fromLE mC hbmC
    have hbC : toLE 8 bu.length = bC := by
      rw [l11, ← l4]
      exact toLE_fromLE bC hbbC
    unfold writeTx
    simp only [hsC, hoC, hmC, hbC]
    rw [e0, e1, e2, e3, e4, e5, e6, e7, e8, e9, e10, e11, e12, hr12]
    simp [List.append_assoc]
  · cases h

/-- Concrete check instantiating claim_C7 on a 45-byte buffer. -/
theorem claim_C7_witness :
    readTx demoFmt demoBs = some demoWireTx ∧ writeTx demoWireTx = demoBs :=
  ⟨by decide, claim_C7 demoFmt demoBs demoWireTx (by decide) (by decide)⟩

end Ironfish
